import Mathlib

/-!
Verification of the RDB-to-JSON converter (`utils/rdb_to_json.py`).

The development shallowly embeds the converter's core: the shlex-style line
tokenizer used via `shlex.split(line, comments=False)`, the best-effort scalar
coercion `_parse_scalar` (Python `int()` then `float()` then string), and the
streaming directive dispatcher `_parse_rdb` that builds the document state
(format version, pairs, tables).  Python dicts are embedded as insertion-ordered
association lists, Python exceptions as an `Except` with a structured error
carrying exactly the data interpolated into the source's `ValueError` messages.
Whitespace handling models the ASCII subset of Python's definitions, which is
exhaustive for the ASCII streams the format carries.
-/

namespace RDB

/-- ASCII subset of the whitespace recognised by Python's `str.strip`. -/
def isPyWS (c : Char) : Bool :=
  c = ' ' || c = '\t' || c = '\n' || c = '\r' || c = '\x0b' || c = '\x0c'

/-- Strip `isPyWS` characters from both ends, as `str.strip()` does. -/
def stripWS (cs : List Char) : List Char :=
  ((cs.dropWhile isPyWS).reverse.dropWhile isPyWS).reverse

/-- `raw_line.strip()`. -/
def pstrip (s : String) : String := String.mk (stripWS s.toList)

/-- `raw_line.rstrip()`. -/
def prstrip (s : String) : String :=
  String.mk ((s.toList.reverse.dropWhile isPyWS).reverse)

/-- Value accumulator for a run of decimal digits. -/
def decStep (n : Nat) (c : Char) : Nat := 10 * n + (c.toNat - 48)

/-- Tail of a Python integer-literal digit run: digits with single
underscores allowed between digits, accumulating the decimal value. -/
def digRun : Nat → List Char → Option Nat
  | acc, [] => some acc
  | acc, c :: cs =>
    if c.isDigit then digRun (decStep acc c) cs
    else if c = '_' then
      match cs with
      | [] => none
      | d :: cs2 => if d.isDigit then digRun (decStep acc d) cs2 else none
    else none

/-- A full Python digit run (`digit (("_")? digit)*`), with its value. -/
def parseDigitsU : List Char → Option Nat
  | [] => none
  | c :: cs => if c.isDigit then digRun (decStep 0 c) cs else none

/-- Embedding of Python's `int(token)` on ASCII input: strip whitespace,
optional sign, digits with single underscore separators; `none` when the
conversion raises `ValueError`. -/
def pyIntParse (s : String) : Option Int :=
  match stripWS s.toList with
  | [] => none
  | c :: rest =>
    if c = '+' then (parseDigitsU rest).map (fun n => (n : Int))
    else if c = '-' then (parseDigitsU rest).map (fun n => -(n : Int))
    else (parseDigitsU (c :: rest)).map (fun n => (n : Int))

/-- Consume a maximal Python digit run (underscores between digits),
returning the unconsumed remainder. -/
def digTail : List Char → List Char
  | [] => []
  | c :: cs =>
    if c.isDigit then digTail cs
    else if c = '_' then
      match cs with
      | [] => [c]
      | d :: cs2 => if d.isDigit then digTail cs2 else c :: cs
    else c :: cs

/-- A digit run must begin with a digit; on success return the remainder. -/
def digPart : List Char → Option (List Char)
  | [] => none
  | c :: cs => if c.isDigit then some (digTail cs) else none

/-- Drop one optional leading sign. -/
def dropSign : List Char → List Char
  | [] => []
  | c :: cs => if c = '+' || c = '-' then cs else c :: cs

/-- Accept an optional exponent suffix (`e`/`E`, optional sign, digit run)
reaching the end of input. -/
def expPartOk : List Char → Bool
  | [] => true
  | c :: cs =>
    if c = 'e' || c = 'E' then
      match digPart (dropSign cs) with
      | some [] => true
      | _ => false
    else false

/-- Numeric (non-inf/nan) body of a Python float literal, sign removed. -/
def floatNumericOk (cs : List Char) : Bool :=
  match digPart cs with
  | some rem =>
    match rem with
    | '.' :: rest =>
      match digPart rest with
      | some rem2 => expPartOk rem2
      | none => expPartOk rest
    | _ => expPartOk rem
  | none =>
    match cs with
    | '.' :: rest =>
      match digPart rest with
      | some rem2 => expPartOk rem2
      | none => false
    | _ => false

/-- Embedding of Python's `float(token)` acceptance on ASCII input:
whether the conversion succeeds (the numeric value itself is never needed
by the converter's observable structure, only which branch was taken). -/
def pyFloatAccepts (s : String) : Bool :=
  let cs := dropSign (stripWS s.toList)
  let low := cs.map Char.toLower
  if low = "inf".toList || low = "infinity".toList || low = "nan".toList then true
  else floatNumericOk cs

/-- The scalar values produced by `_parse_scalar`: `int`, `float`, or `str`.
A float is represented by the token that produced it; no claim observes the
numeric value of a float, only which variant a token became. -/
inductive Value where
  | int : Int → Value
  | float : String → Value
  | str : String → Value
deriving DecidableEq, Repr

/-- `_parse_scalar`: best-effort conversion of a token to int, then float,
else str (the source tries `int(token)`, then `float(token)`). -/
def _parse_scalar (token : String) : Value :=
  match pyIntParse token with
  | some n => Value.int n
  | none => if pyFloatAccepts token then Value.float token else Value.str token

/-- Scanner mode of the shlex tokenizer: outside quotes, inside single
quotes, inside double quotes. -/
inductive SMode where
  | norm : SMode
  | squote : SMode
  | dquote : SMode
deriving DecidableEq, Repr

/-- One step-per-character model of `shlex.split(line, comments=False)`
(POSIX mode, `whitespace_split=True`, commenters cleared): `acc` is the
current token (reversed), `hasTok` whether a token (possibly empty but
quoted) is in progress, `out` the emitted tokens.  `none` models the
`ValueError` raised on an unterminated quote or trailing escape.  The fuel
argument only forces totality; one unit is spent per consumed character, so
`length + 1` always suffices. -/
def shlexAux : Nat → SMode → List Char → List Char → Bool → List String → Option (List String)
  | 0, _, _, _, _, _ => none
  | _ + 1, .norm, [], acc, hasTok, out =>
    some (if hasTok then out ++ [String.mk acc.reverse] else out)
  | fuel + 1, .norm, c :: cs, acc, hasTok, out =>
    if c = ' ' || c = '\t' || c = '\r' || c = '\n' then
      if hasTok then shlexAux fuel .norm cs [] false (out ++ [String.mk acc.reverse])
      else shlexAux fuel .norm cs [] false out
    else if c = '\'' then shlexAux fuel .squote cs acc true out
    else if c = '"' then shlexAux fuel .dquote cs acc true out
    else if c = '\\' then
      match cs with
      | [] => none
      | d :: cs2 => shlexAux fuel .norm cs2 (d :: acc) true out
    else shlexAux fuel .norm cs (c :: acc) true out
  | _ + 1, .squote, [], _, _, _ => none
  | fuel + 1, .squote, c :: cs, acc, _, out =>
    if c = '\'' then shlexAux fuel .norm cs acc true out
    else shlexAux fuel .squote cs (c :: acc) true out
  | _ + 1, .dquote, [], _, _, _ => none
  | fuel + 1, .dquote, c :: cs, acc, _, out =>
    if c = '"' then shlexAux fuel .norm cs acc true out
    else if c = '\\' then
      match cs with
      | [] => none
      | d :: cs2 =>
        if d = '"' || d = '\\' then shlexAux fuel .dquote cs2 (d :: acc) true out
        else shlexAux fuel .dquote cs2 (d :: '\\' :: acc) true out
    else shlexAux fuel .dquote cs (c :: acc) true out

/-- `shlex.split(line, comments=False)`: `some tokens`, or `none` when
tokenization raises. -/
def shlexSplit (s : String) : Option (List String) :=
  shlexAux (s.length + 1) .norm s.toList [] false []

/-- Python dict assignment `m[k] = v` on an insertion-ordered association
list: replace the value in place when the key is present, else append. -/
def dinsert {α : Type} : List (String × α) → String → α → List (String × α)
  | [], k, v => [(k, v)]
  | (k0, v0) :: rest, k, v =>
    if k0 = k then (k0, v) :: rest else (k0, v0) :: dinsert rest k v

/-- The dict comprehension `{col: [] for col in col_names}`. -/
def initData (cols : List String) : List (String × List Value) :=
  (cols.map (fun c => (c, ([] : List Value)))).foldl (fun m p => dinsert m p.1 p.2) []

/-- `table["data"][col].append(v)`: append `v` to the sequence stored under
`col` (every `col` handed to it is a key of `d` by construction). -/
def dappend (d : List (String × List Value)) (c : String) (v : Value) :
    List (String × List Value) :=
  d.map (fun q => if q.1 = c then (q.1, q.2 ++ [v]) else q)

/-- One table: name, the `#altcols` column list verbatim, and the
per-column data dict.  `rows` is ghost instrumentation counting accepted
`#altrow` lines for this table; nothing in the embedded code reads it. -/
structure Table where
  name : String
  columns : List String
  data : List (String × List Value)
  rows : Nat
deriving DecidableEq, Repr

/-- The `for col, tok in zip(col_names, row_values): data[col].append(_parse_scalar(tok))`
loop, plus the ghost row counter. -/
def appendRow (t : Table) (rowvals : List String) : Table :=
  { t with
    data := (t.columns.zip rowvals).foldl (fun d p => dappend d p.1 (_parse_scalar p.2)) t.data
    rows := t.rows + 1 }

/-- The local state of `_parse_rdb`: `format_version`, `pairs`, `tables` (a
dict keyed by table name, embedded as a creation-ordered list of tables
with distinct names).  `pairTrace` is ghost instrumentation recording each
accepted `#pair` write in order; nothing in the embedded code reads it. -/
structure BState where
  format : Option Int
  pairs : List (String × Value)
  tables : List Table
  pairTrace : List (String × Value)
deriving DecidableEq, Repr

/-- The structured content of each `ValueError` the parser raises; each
constructor carries exactly the data the source interpolates into the
message. -/
inductive ParseError where
  | conflictingAltcols : String → List String → List String → ParseError
  | unknownTable : String → ParseError
  | rowLengthMismatch : String → Nat → Nat → String → ParseError
deriving DecidableEq, Repr

/-- The `#start` scan: walk the tokens looking for the literal `format`
followed by another token; on the first hit, `format_version` becomes
`int(next)` on success and `None` on failure, and the scan breaks. -/
def scanFormat : List String → Option Int → Option Int
  | t1 :: t2 :: rest, fv =>
    if t1 = "format" then pyIntParse t2 else scanFormat (t2 :: rest) fv
  | _, fv => fv

/-- The `#start` handler. -/
def handleStart (s : BState) (toks : List String) : BState :=
  { s with format := scanFormat toks s.format }

/-- The `#pair` handler: needs tag, key and at least one value token; extra
value tokens are joined with single spaces before coercion. -/
def handlePair (s : BState) (rest : List String) : Except ParseError BState :=
  match rest with
  | key :: v1 :: vrest =>
    Except.ok { s with
      pairs := dinsert s.pairs key (_parse_scalar (String.intercalate " " (v1 :: vrest)))
      pairTrace := s.pairTrace ++
        [(key, _parse_scalar (String.intercalate " " (v1 :: vrest)))] }
  | _ => Except.ok s

/-- The `#altcols` handler: create the table on first sight, otherwise
require the column list to be identical to the existing one. -/
def handleAltcols (s : BState) (rest : List String) : Except ParseError BState :=
  match rest with
  | tname :: c1 :: crest =>
    match s.tables.find? (fun u => u.name == tname) with
    | some t =>
      if t.columns ≠ c1 :: crest then
        Except.error (ParseError.conflictingAltcols tname t.columns (c1 :: crest))
      else Except.ok s
    | none =>
      Except.ok { s with
        tables := s.tables ++
          [{ name := tname, columns := c1 :: crest, data := initData (c1 :: crest), rows := 0 }] }
  | _ => Except.ok s

/-- The `#altrow` handler: the table must exist, the value count must equal
the column count, and on success each coerced value is appended to its
column in column order. -/
def handleAltrow (s : BState) (raw : String) (rest : List String) : Except ParseError BState :=
  match rest with
  | [] => Except.ok s
  | tname :: rowvals =>
    match s.tables.find? (fun u => u.name == tname) with
    | none => Except.error (ParseError.unknownTable tname)
    | some t =>
      if rowvals.length ≠ t.columns.length then
        Except.error (ParseError.rowLengthMismatch tname rowvals.length t.columns.length (prstrip raw))
      else
        Except.ok { s with
          tables := s.tables.map (fun u => if u.name == tname then appendRow u rowvals else u) }

/-- One iteration of the `for raw_line in stream` loop of `_parse_rdb`:
strip, skip blank lines, tokenize (skipping lines whose tokenization
raises), then dispatch on the tag exactly in the source's order. -/
def stepLine (s : BState) (raw : String) : Except ParseError BState :=
  if pstrip raw = "" then Except.ok s
  else
    match shlexSplit (pstrip raw) with
    | none => Except.ok s
    | some [] => Except.ok s
    | some (tag :: rest) =>
      if tag = "#start" then Except.ok (handleStart s (tag :: rest))
      else if tag = "#end" then Except.ok s
      else if tag = "#pair" then handlePair s rest
      else if tag = "#altcols" then handleAltcols s rest
      else if tag = "#altrow" then handleAltrow s raw rest
      else Except.ok s

/-- The whole loop of `_parse_rdb` over the input lines; a raised
`ValueError` aborts the remaining lines. -/
def parseLines (s : BState) : List String → Except ParseError BState
  | [] => Except.ok s
  | l :: ls =>
    match stepLine s l with
    | Except.ok s2 => parseLines s2 ls
    | Except.error e => Except.error e

/-- The empty builder state at the top of `_parse_rdb`. -/
def initState : BState :=
  { format := none, pairs := [], tables := [], pairTrace := [] }

/-- The final JSON-shaped document `_parse_rdb` returns. -/
structure Document where
  format : Option Int
  pairs : List (String × Value)
  tables : List Table
deriving DecidableEq, Repr

/-- The trailing `return {"format": ..., "pairs": ..., "tables": list(tables.values())}`. -/
def finalize (s : BState) : Document :=
  { format := s.format, pairs := s.pairs, tables := s.tables }

/-- `_parse_rdb` on a stream of raw lines. -/
def _parse_rdb (ls : List String) : Except ParseError Document :=
  (parseLines initState ls).map finalize

/-- The spec's integer grammar: an optional leading minus sign followed by
at least one base-10 digit and nothing else. -/
def specIntGrammar (s : String) : Bool :=
  let body := if s.toList.head? = some '-' then s.toList.tail else s.toList
  !body.isEmpty && body.all Char.isDigit

/-- Numeric value of a digit string. -/
def decimalVal (ds : List Char) : Nat := ds.foldl decStep 0

/-- Numeric value of a token in the spec's integer grammar. -/
def specIntVal (s : String) : Int :=
  if s.toList.head? = some '-' then -((decimalVal s.toList.tail : Nat) : Int)
  else ((decimalVal s.toList : Nat) : Int)

/-- Exponent part of the spec's float grammar: `e`/`E`, optional sign, at
least one digit, no underscores. -/
def specExpPart : List Char → Bool
  | [] => true
  | c :: cs =>
    (c = 'e' || c = 'E') &&
      (let cs2 := dropSign cs
       !cs2.isEmpty && cs2.all Char.isDigit)

/-- Modelled from the spec: its floating-point literal grammar — optional
sign, digits with an optional decimal point (at least one digit overall),
and an optional `e`/`E` exponent with optional sign; no underscores, no
whitespace, no `inf`/`nan` words. -/
def specFloatGrammar (s : String) : Bool :=
  let cs := dropSign s.toList
  let intPart := cs.takeWhile Char.isDigit
  let rest := cs.dropWhile Char.isDigit
  match rest with
  | '.' :: rest2 =>
    let frac := rest2.takeWhile Char.isDigit
    let rest3 := rest2.dropWhile Char.isDigit
    (!intPart.isEmpty || !frac.isEmpty) && specExpPart rest3
  | _ => !intPart.isEmpty && specExpPart rest

/-- First-occurrence deduplication: each name at the position of its first
appearance, later repetitions dropped. -/
def firstDedup (l : List String) : List String :=
  l.foldl (fun ks k => if k ∈ ks then ks else ks ++ [k]) []

/-- Dict lookup on an association list: value of the first matching entry. -/
def lookupV {α : Type} (k : String) (m : List (String × α)) : Option α :=
  (m.find? (fun p => p.1 == k)).map Prod.snd

/-- The value of the last write to key `k` in a write sequence, if any. -/
def lastWriteVal {α : Type} (k : String) (ws : List (String × α)) : Option α :=
  ((ws.filter (fun p => p.1 == k)).getLast?).map Prod.snd

/-- The values a row-append loop over `zs` sends to column `k`, in order. -/
def selVals (k : String) (zs : List (String × String)) : List Value :=
  (zs.filter (fun p => p.1 == k)).map (fun p => _parse_scalar p.2)

/-- Per-table invariant carried through the parse: the data dict's keys are
the first-occurrence deduplication of the column list, and — whenever the
column list has no duplicate names — every column's sequence has exactly
`rows` values. -/
def TableInv (t : Table) : Prop :=
  t.data.map Prod.fst = firstDedup t.columns ∧
    (t.columns.Nodup → ∀ p ∈ t.data, p.2.length = t.rows)

/-- Builder-state invariant: table names are pairwise distinct and every
table satisfies `TableInv`. -/
def StateInv (s : BState) : Prop :=
  (s.tables.map Table.name).Nodup ∧ ∀ t ∈ s.tables, TableInv t

/-- Pair-trace invariant: the pairs dict is the dict-fold of the ghost
write trace. -/
def PairInv (s : BState) : Prop :=
  s.pairs = s.pairTrace.foldl (fun m p => dinsert m p.1 p.2) []

/-- First token, if any, equal to the literal `format` and followed by
another token: that following token. -/
def findFormatArg : List String → Option String
  | t1 :: t2 :: rest => if t1 = "format" then some t2 else findFormatArg (t2 :: rest)
  | _ => none

/-- A sample two-column table, used to instantiate hypothesis-bearing
theorems at concrete inputs. -/
def tabTA : Table :=
  { name := "t", columns := ["a", "b"], data := [("a", []), ("b", [])], rows := 0 }

/-- A sample builder state holding `tabTA`. -/
def stTA : BState :=
  { format := none, pairs := [], tables := [tabTA], pairTrace := [] }

/-- The table the parser builds from `#altcols t a a` plus `#altrow t 1 2`:
one accepted row, but both row values accumulated under the single key `a`. -/
def c1CexTable : Table :=
  { name := "t", columns := ["a", "a"], data := [("a", [Value.int 1, Value.int 2])], rows := 1 }

/-- The builder state holding `c1CexTable`. -/
def c1CexState : BState :=
  { format := none, pairs := [], tables := [c1CexTable], pairTrace := [] }

/-- The table the parser builds from `#altcols t a b` plus `#altrow t 1 2`. -/
def c1WitTable : Table :=
  { name := "t", columns := ["a", "b"],
    data := [("a", [Value.int 1]), ("b", [Value.int 2])], rows := 1 }

/-- The builder state holding `c1WitTable`. -/
def c1WitState : BState :=
  { format := none, pairs := [], tables := [c1WitTable], pairTrace := [] }

/-- The builder state after `#pair k 1` then `#pair k 2`. -/
def c7State : BState :=
  { format := none, pairs := [("k", Value.int 2)], tables := [],
    pairTrace := [("k", Value.int 1), ("k", Value.int 2)] }

/- ------------------------------------------------------------------ -/
/- Basic reduction lemmas for the dispatcher.                          -/
/- ------------------------------------------------------------------ -/

lemma shlexSplit_empty : shlexSplit "" = some [] := rfl

lemma pstrip_ne_of_tok {raw : String} {tag : String} {rest : List String}
    (h : shlexSplit (pstrip raw) = some (tag :: rest)) : pstrip raw ≠ "" := by
  intro h0
  rw [h0, shlexSplit_empty] at h
  simp at h

lemma stepLine_dispatch {s : BState} {raw : String} {tag : String} {rest : List String}
    (h : shlexSplit (pstrip raw) = some (tag :: rest)) :
    stepLine s raw =
      (if tag = "#start" then Except.ok (handleStart s (tag :: rest))
       else if tag = "#end" then Except.ok s
       else if tag = "#pair" then handlePair s rest
       else if tag = "#altcols" then handleAltcols s rest
       else if tag = "#altrow" then handleAltrow s raw rest
       else Except.ok s) := by
  have hne := pstrip_ne_of_tok h
  unfold stepLine
  rw [if_neg hne, h]

lemma stepLine_start {s : BState} {raw : String} {rest : List String}
    (h : shlexSplit (pstrip raw) = some ("#start" :: rest)) :
    stepLine s raw = Except.ok (handleStart s ("#start" :: rest)) := by
  rw [stepLine_dispatch h]
  rfl

lemma stepLine_pair {s : BState} {raw : String} {rest : List String}
    (h : shlexSplit (pstrip raw) = some ("#pair" :: rest)) :
    stepLine s raw = handlePair s rest := by
  rw [stepLine_dispatch h]
  rfl

lemma stepLine_altcols {s : BState} {raw : String} {rest : List String}
    (h : shlexSplit (pstrip raw) = some ("#altcols" :: rest)) :
    stepLine s raw = handleAltcols s rest := by
  rw [stepLine_dispatch h]
  rfl

lemma stepLine_altrow {s : BState} {raw : String} {rest : List String}
    (h : shlexSplit (pstrip raw) = some ("#altrow" :: rest)) :
    stepLine s raw = handleAltrow s raw rest := by
  rw [stepLine_dispatch h]
  rfl

lemma parseLines_cons (s : BState) (l : String) (ls : List String) :
    parseLines s (l :: ls) =
      match stepLine s l with
      | Except.ok s2 => parseLines s2 ls
      | Except.error e => Except.error e := rfl

lemma scanFormat_eq (toks : List String) (fv : Option Int) :
    scanFormat toks fv = (findFormatArg toks).elim fv pyIntParse := by
  induction toks with
  | nil => rfl
  | cons t1 rest ih =>
    cases rest with
    | nil => rfl
    | cons t2 rest2 =>
      by_cases h : t1 = "format"
      · simp [scanFormat, findFormatArg, h]
      · simp only [scanFormat, findFormatArg, if_neg h]
        exact ih

/- ------------------------------------------------------------------ -/
/- Claims C3, C4, C5, C10, C8, C9.                                     -/
/- ------------------------------------------------------------------ -/

/-- Claim C3 (confirmed): an `#altrow` line for a table whose columns are
defined, with a value count different from the column count, makes the
whole conversion abort with a fatal error carrying the offending raw line
(rstripped, as the source reports it), the actual count, and the expected
count; the abort also kills every following line, so no document is
produced and the row is never appended. -/
theorem altrow_length_mismatch_fatal (s : BState) (raw tname : String)
    (rowvals : List String) (t : Table) (ls : List String)
    (htok : shlexSplit (pstrip raw) = some ("#altrow" :: tname :: rowvals))
    (hfind : s.tables.find? (fun u => u.name == tname) = some t)
    (hlen : rowvals.length ≠ t.columns.length) :
    stepLine s raw =
      Except.error (ParseError.rowLengthMismatch tname rowvals.length t.columns.length (prstrip raw)) ∧
    parseLines s (raw :: ls) =
      Except.error (ParseError.rowLengthMismatch tname rowvals.length t.columns.length (prstrip raw)) := by
  have h1 : stepLine s raw =
      Except.error (ParseError.rowLengthMismatch tname rowvals.length t.columns.length (prstrip raw)) := by
    rw [stepLine_altrow htok]
    unfold handleAltrow
    simp only [hfind, if_pos hlen]
  exact ⟨h1, by rw [parseLines_cons, h1]⟩

theorem altrow_length_mismatch_fatal_witness :
    stepLine stTA "#altrow t 1" =
      Except.error (ParseError.rowLengthMismatch "t" 1 2 "#altrow t 1") ∧
    parseLines stTA ["#altrow t 1"] =
      Except.error (ParseError.rowLengthMismatch "t" 1 2 "#altrow t 1") :=
  altrow_length_mismatch_fatal stTA "#altrow t 1" "t" ["1"] tabTA []
    (by rfl) (by rfl) (by decide)

/-- Claim C4 (confirmed): an `#altrow` line with at least two tokens naming
a table with no prior `#altcols` makes the whole conversion abort with a
fatal error naming that table, so no document is produced. -/
theorem altrow_unknown_table_fatal (s : BState) (raw tname : String)
    (rowvals : List String) (ls : List String)
    (htok : shlexSplit (pstrip raw) = some ("#altrow" :: tname :: rowvals))
    (hfind : s.tables.find? (fun u => u.name == tname) = none) :
    stepLine s raw = Except.error (ParseError.unknownTable tname) ∧
    parseLines s (raw :: ls) = Except.error (ParseError.unknownTable tname) := by
  have h1 : stepLine s raw = Except.error (ParseError.unknownTable tname) := by
    rw [stepLine_altrow htok]
    unfold handleAltrow
    simp only [hfind]
  exact ⟨h1, by rw [parseLines_cons, h1]⟩

theorem altrow_unknown_table_fatal_witness :
    stepLine initState "#altrow x 1 2" = Except.error (ParseError.unknownTable "x") ∧
    parseLines initState ["#altrow x 1 2"] = Except.error (ParseError.unknownTable "x") :=
  altrow_unknown_table_fatal initState "#altrow x 1 2" "x" ["1", "2"] []
    (by rfl) (by rfl)

/-- Claim C5 (confirmed): an `#altcols` line for an existing table whose
column list is not element-wise identical to the existing one makes the
whole conversion abort with a fatal error naming the table and carrying
both column lists. -/
theorem altcols_conflict_fatal (s : BState) (raw tname c1 : String)
    (crest : List String) (t : Table) (ls : List String)
    (htok : shlexSplit (pstrip raw) = some ("#altcols" :: tname :: c1 :: crest))
    (hfind : s.tables.find? (fun u => u.name == tname) = some t)
    (hne : t.columns ≠ c1 :: crest) :
    stepLine s raw = Except.error (ParseError.conflictingAltcols tname t.columns (c1 :: crest)) ∧
    parseLines s (raw :: ls) =
      Except.error (ParseError.conflictingAltcols tname t.columns (c1 :: crest)) := by
  have h1 : stepLine s raw =
      Except.error (ParseError.conflictingAltcols tname t.columns (c1 :: crest)) := by
    rw [stepLine_altcols htok]
    unfold handleAltcols
    simp only [hfind, if_pos hne]
  exact ⟨h1, by rw [parseLines_cons, h1]⟩

theorem altcols_conflict_fatal_witness :
    stepLine stTA "#altcols t a c" =
      Except.error (ParseError.conflictingAltcols "t" ["a", "b"] ["a", "c"]) ∧
    parseLines stTA ["#altcols t a c"] =
      Except.error (ParseError.conflictingAltcols "t" ["a", "b"] ["a", "c"]) :=
  altcols_conflict_fatal stTA "#altcols t a c" "t" "a" ["c"] tabTA []
    (by rfl) (by rfl) (by decide)

/-- Claim C10 (confirmed): an `#altcols` line for an existing table with an
element-wise identical column list returns the state unchanged — the very
same builder state, so that table's name, columns, data and row count, all
other tables, and the pairs mapping are untouched — and processing simply
continues. -/
theorem altcols_identical_noop (s : BState) (raw tname c1 : String)
    (crest : List String) (t : Table) (ls : List String)
    (htok : shlexSplit (pstrip raw) = some ("#altcols" :: tname :: c1 :: crest))
    (hfind : s.tables.find? (fun u => u.name == tname) = some t)
    (heq : t.columns = c1 :: crest) :
    stepLine s raw = Except.ok s ∧ parseLines s (raw :: ls) = parseLines s ls := by
  have h1 : stepLine s raw = Except.ok s := by
    rw [stepLine_altcols htok]
    unfold handleAltcols
    simp only [hfind]
    rw [if_neg (by simp [heq])]
  exact ⟨h1, by rw [parseLines_cons, h1]⟩

theorem altcols_identical_noop_witness :
    stepLine stTA "#altcols t a b" = Except.ok stTA ∧
    parseLines stTA ["#altcols t a b"] = parseLines stTA [] :=
  altcols_identical_noop stTA "#altcols t a b" "t" "a" ["b"] tabTA []
    (by rfl) (by rfl) (by rfl)

/-- Claim C8 (confirmed): on a `#start` line, when some token is the
literal `format` and is followed by another token, the format becomes the
result of integer coercion of the first such following token: the integer
itself on success, and absent (`none`) on failure — in particular a format
previously set by an earlier `#start` line is not retained after a
failure, since the assignment overwrites it with `none`. -/
theorem start_format_scan (s : BState) (raw : String) (toks : List String) (a : String)
    (htok : shlexSplit (pstrip raw) = some toks)
    (hhead : toks.head? = some "#start")
    (hfmt : findFormatArg toks = some a) :
    stepLine s raw = Except.ok { s with format := pyIntParse a } := by
  cases toks with
  | nil => simp at hhead
  | cons t rest =>
    have ht : t = "#start" := by simpa using hhead
    subst ht
    rw [stepLine_start htok]
    unfold handleStart
    rw [scanFormat_eq, hfmt]
    rfl

theorem start_format_scan_witness :
    stepLine { initState with format := some 9 } "#start format x" =
      Except.ok { initState with format := none } :=
  start_format_scan { initState with format := some 9 } "#start format x"
    ["#start", "format", "x"] "x" (by rfl) (by rfl) (by rfl)

/-- Claim C9 (confirmed): a line whose tokenization fails (e.g. an
unterminated quote), and a `#pair` line with fewer than three tokens, are
recoverable and line-local — the step returns the builder state unchanged
and parsing the rest of the stream proceeds exactly as if the line were
absent. -/
theorem recoverable_line_local_skip (s : BState) (raw : String) (ls : List String)
    (h : shlexSplit (pstrip raw) = none ∨
         ∃ rest, shlexSplit (pstrip raw) = some ("#pair" :: rest) ∧ rest.length < 2) :
    stepLine s raw = Except.ok s ∧ parseLines s (raw :: ls) = parseLines s ls := by
  have h1 : stepLine s raw = Except.ok s := by
    rcases h with h | ⟨rest, htok, hlen⟩
    · by_cases h0 : pstrip raw = ""
      · unfold stepLine
        rw [if_pos h0]
      · unfold stepLine
        rw [if_neg h0, h]
    · rw [stepLine_pair htok]
      cases rest with
      | nil => rfl
      | cons k rest2 =>
        cases rest2 with
        | nil => rfl
        | cons v r =>
          exfalso
          simp only [List.length_cons] at hlen
          omega
  exact ⟨h1, by rw [parseLines_cons, h1]⟩

theorem recoverable_line_local_skip_witness :
    (stepLine initState "#pair \"k" = Except.ok initState ∧
      parseLines initState ["#pair \"k"] = parseLines initState []) ∧
    (stepLine initState "#pair onlykey" = Except.ok initState ∧
      parseLines initState ["#pair onlykey"] = parseLines initState []) :=
  ⟨recoverable_line_local_skip initState "#pair \"k" [] (Or.inl (by rfl)),
   recoverable_line_local_skip initState "#pair onlykey" []
     (Or.inr ⟨["onlykey"], by rfl, by decide⟩)⟩

/- ------------------------------------------------------------------ -/
/- Scalar coercion: claims C6 and C2.                                  -/
/- ------------------------------------------------------------------ -/

lemma isDigit_not_ws {c : Char} (h : c.isDigit = true) : isPyWS c = false := by
  by_contra hc
  have hw : isPyWS c = true := by
    cases hb : isPyWS c
    · exact absurd hb hc
    · rfl
  unfold isPyWS at hw
  simp only [Bool.or_eq_true, decide_eq_true_eq] at hw
  rcases hw with ((((h1 | h1) | h1) | h1) | h1) | h1 <;>
    (subst h1; exact absurd h (by decide))

lemma isDigit_ne_plus {c : Char} (h : c.isDigit = true) : ¬(c = '+') := by
  intro h1
  subst h1
  exact absurd h (by decide)

lemma isDigit_ne_minus {c : Char} (h : c.isDigit = true) : ¬(c = '-') := by
  intro h1
  subst h1
  exact absurd h (by decide)

lemma stripWS_eq_self {cs : List Char} (h : ∀ c ∈ cs, isPyWS c = false) :
    stripWS cs = cs := by
  unfold stripWS
  have h1 : cs.dropWhile isPyWS = cs := by
    cases cs with
    | nil => rfl
    | cons c cs2 => simp [List.dropWhile_cons, h c (by simp)]
  rw [h1]
  have h2 : cs.reverse.dropWhile isPyWS = cs.reverse := by
    cases hrev : cs.reverse with
    | nil => rfl
    | cons c cs2 =>
      have hm : c ∈ cs := by
        rw [← List.mem_reverse, hrev]
        simp
      simp [List.dropWhile_cons, h c hm]
  rw [h2, List.reverse_reverse]

lemma digRun_all_digits (ds : List Char) :
    ∀ acc, (∀ c ∈ ds, c.isDigit = true) → digRun acc ds = some (ds.foldl decStep acc) := by
  induction ds with
  | nil =>
    intro acc _
    rfl
  | cons c cs ih =>
    intro acc h
    have hc : c.isDigit = true := h c (by simp)
    unfold digRun
    rw [if_pos hc, List.foldl_cons]
    exact ih (decStep acc c) (fun d hd => h d (by simp [hd]))

lemma parseDigitsU_all (ds : List Char) (hne : ds ≠ []) (h : ∀ c ∈ ds, c.isDigit = true) :
    parseDigitsU ds = some (decimalVal ds) := by
  cases ds with
  | nil => exact absurd rfl hne
  | cons c cs =>
    have hc : c.isDigit = true := h c (by simp)
    show (if c.isDigit = true then digRun (decStep 0 c) cs else none) = some (decimalVal (c :: cs))
    rw [if_pos hc, digRun_all_digits cs (decStep 0 c) (fun d hd => h d (by simp [hd]))]
    rfl

lemma pyIntParse_cons (c : Char) (rest : List Char) (s : String)
    (hstrip : stripWS s.toList = c :: rest) :
    pyIntParse s =
      (if c = '+' then (parseDigitsU rest).map (fun n => (n : Int))
       else if c = '-' then (parseDigitsU rest).map (fun n => -(n : Int))
       else (parseDigitsU (c :: rest)).map (fun n => (n : Int))) := by
  unfold pyIntParse
  rw [hstrip]

/-- Claim C6 (confirmed): every token in the spec's integer grammar — an
optional leading minus sign followed by base-10 digits only — is coerced
to an Integer equal to its numeric value (leading zeros normalized away),
never to a Float or Text: the integer trial comes first and succeeds. -/
theorem int_grammar_yields_integer (s : String) (h : specIntGrammar s = true) :
    _parse_scalar s = Value.int (specIntVal s) := by
  cases hs : s.toList with
  | nil =>
    unfold specIntGrammar at h
    rw [hs] at h
    simp at h
  | cons c ds =>
    by_cases hc : c = '-'
    · subst hc
      have hb : (!ds.isEmpty && ds.all Char.isDigit) = true := by
        unfold specIntGrammar at h
        rw [hs] at h
        simpa using h
      simp only [Bool.and_eq_true, Bool.not_eq_true', List.all_eq_true,
        decide_eq_true_eq] at hb
      have hdne : ds ≠ [] := by
        intro h0
        rw [h0] at hb
        simp at hb
      have hd : ∀ d ∈ ds, d.isDigit = true := hb.2
      have hnw : ∀ x ∈ '-' :: ds, isPyWS x = false := by
        intro x hx
        rcases List.mem_cons.mp hx with h1 | h1
        · subst h1; rfl
        · exact isDigit_not_ws (hd x h1)
      have hstrip : stripWS s.toList = '-' :: ds := by
        rw [hs]
        exact stripWS_eq_self hnw
      have hint : pyIntParse s = some (-((decimalVal ds : Nat) : Int)) := by
        rw [pyIntParse_cons '-' ds s hstrip]
        rw [if_neg (by decide), if_pos rfl, parseDigitsU_all ds hdne hd]
        rfl
      have hval : specIntVal s = -((decimalVal ds : Nat) : Int) := by
        unfold specIntVal
        rw [hs]
        rfl
      unfold _parse_scalar
      rw [hint, hval]
    · have hb : (!(c :: ds).isEmpty && (c :: ds).all Char.isDigit) = true := by
        unfold specIntGrammar at h
        rw [hs] at h
        rw [if_neg (by simp [hc])] at h
        exact h
      simp only [Bool.and_eq_true, List.all_eq_true, decide_eq_true_eq] at hb
      have hd : ∀ d ∈ c :: ds, d.isDigit = true := hb.2
      have hcd : c.isDigit = true := hd c (by simp)
      have hnw : ∀ x ∈ c :: ds, isPyWS x = false := fun x hx => isDigit_not_ws (hd x hx)
      have hstrip : stripWS s.toList = c :: ds := by
        rw [hs]
        exact stripWS_eq_self hnw
      have hint : pyIntParse s = some ((decimalVal (c :: ds) : Nat) : Int) := by
        rw [pyIntParse_cons c ds s hstrip]
        rw [if_neg (isDigit_ne_plus hcd), if_neg (isDigit_ne_minus hcd)]
        rw [parseDigitsU_all (c :: ds) (by simp) hd]
        rfl
      have hval : specIntVal s = ((decimalVal (c :: ds) : Nat) : Int) := by
        unfold specIntVal
        rw [hs, if_neg (by simp [hc])]
      unfold _parse_scalar
      rw [hint, hval]

theorem int_grammar_yields_integer_witness :
    _parse_scalar "007" = Value.int 7 ∧ _parse_scalar "-5" = Value.int (-5) :=
  ⟨int_grammar_yields_integer "007" (by rfl), int_grammar_yields_integer "-5" (by rfl)⟩

/-- Claim C2 counterexample: the token `1_000` matches neither the spec's
integer grammar nor its float grammar, yet Scalar Coercion does not return
Text — Python's `int()` accepts underscore separators and yields the
Integer 1000. -/
theorem coercion_spec_grammar_text_cex :
    specIntGrammar "1_000" = false ∧ specFloatGrammar "1_000" = false ∧
    _parse_scalar "1_000" = Value.int 1000 ∧
    ¬(_parse_scalar "1_000" = Value.str "1_000") := by
  refine ⟨by rfl, by rfl, by rfl, by decide⟩

/-- Claim C2 (corrected): Scalar Coercion returns Text — with content
exactly the original token — precisely for the tokens on which Python's
`int()` and `float()` conversions both fail; this acceptance is wider than
the spec's grammars (leading `+`, surrounding whitespace, underscore
separators, `inf`/`nan` forms are all accepted as numbers). -/
theorem coercion_text_iff_py_failures (tok : String) :
    _parse_scalar tok = Value.str tok ↔
      (pyIntParse tok = none ∧ pyFloatAccepts tok = false) := by
  unfold _parse_scalar
  cases hp : pyIntParse tok with
  | some n => simp [hp]
  | none =>
    cases hf : pyFloatAccepts tok with
    | true => simp [hf]
    | false => simp [hf]

theorem coercion_text_iff_py_failures_witness :
    _parse_scalar "abc" = Value.str "abc" :=
  (coercion_text_iff_py_failures "abc").mpr ⟨by rfl, by rfl⟩

/- ------------------------------------------------------------------ -/
/- Ordered-dict lemmas for the builder invariants (claims C1 and C7).  -/
/- ------------------------------------------------------------------ -/

lemma dinsert_map_fst {α : Type} (m : List (String × α)) (k : String) (v : α) :
    (dinsert m k v).map Prod.fst =
      if k ∈ m.map Prod.fst then m.map Prod.fst else m.map Prod.fst ++ [k] := by
  induction m with
  | nil => simp [dinsert]
  | cons q m ih =>
    obtain ⟨k0, v0⟩ := q
    by_cases h0 : k0 = k
    · subst h0
      unfold dinsert
      rw [if_pos rfl]
      simp
    · unfold dinsert
      rw [if_neg h0]
      simp only [List.map_cons]
      rw [ih]
      by_cases hm : k ∈ m.map Prod.fst
      · rw [if_pos hm, if_pos (by simp [hm])]
      · rw [if_neg hm, if_neg (by simp [hm]; exact fun he => h0 he.symm)]
        simp

lemma foldl_dinsert_map_fst {α : Type} (ws : List (String × α)) :
    ∀ m : List (String × α),
      (ws.foldl (fun m p => dinsert m p.1 p.2) m).map Prod.fst
        = ws.foldl (fun ks p => if p.1 ∈ ks then ks else ks ++ [p.1]) (m.map Prod.fst) := by
  induction ws with
  | nil => intro m; rfl
  | cons p ws ih =>
    intro m
    rw [List.foldl_cons, List.foldl_cons, ih, dinsert_map_fst]

lemma mem_dinsert {α : Type} {m : List (String × α)} {k : String} {v : α} {p : String × α}
    (h : p ∈ dinsert m k v) : p ∈ m ∨ p = (k, v) := by
  induction m with
  | nil =>
    simp [dinsert] at h
    simp [h]
  | cons q m ih =>
    obtain ⟨k0, v0⟩ := q
    unfold dinsert at h
    by_cases h0 : k0 = k
    · rw [if_pos h0] at h
      rcases List.mem_cons.mp h with h1 | h1
      · right
        rw [h1, h0]
      · left
        exact List.mem_cons_of_mem _ h1
    · rw [if_neg h0] at h
      rcases List.mem_cons.mp h with h1 | h1
      · left
        simp [h1]
      · rcases ih h1 with h2 | h2
        · left
          exact List.mem_cons_of_mem _ h2
        · right
          exact h2

lemma initData_map_fst (cols : List String) :
    (initData cols).map Prod.fst = firstDedup cols := by
  unfold initData firstDedup
  rw [foldl_dinsert_map_fst, List.foldl_map]
  rfl

lemma initData_values_nil (cols : List String) : ∀ p ∈ initData cols, p.2 = ([] : List Value) := by
  unfold initData
  suffices hg : ∀ (l : List (String × List Value)) (m : List (String × List Value)),
      (∀ p ∈ m, p.2 = []) → (∀ p ∈ l, p.2 = []) →
      ∀ p ∈ l.foldl (fun m p => dinsert m p.1 p.2) m, p.2 = [] by
    intro p hp
    refine hg _ [] (by simp) ?_ p hp
    intro p hp
    rcases List.mem_map.mp hp with ⟨c, _, hc⟩
    rw [← hc]
  intro l
  induction l with
  | nil =>
    intro m hm _ p hp
    exact hm p hp
  | cons q l ih =>
    intro m hm hl p hp
    rw [List.foldl_cons] at hp
    refine ih (dinsert m q.1 q.2) ?_ (fun r hr => hl r (List.mem_cons_of_mem _ hr)) p hp
    intro r hr
    rcases mem_dinsert hr with h1 | h1
    · exact hm r h1
    · rw [h1]
      exact hl q (List.mem_cons_self _ _)

lemma foldl_keyStep_append (l : List String) :
    ∀ acc : List String, (acc ++ l).Nodup →
      l.foldl (fun ks k => if k ∈ ks then ks else ks ++ [k]) acc = acc ++ l := by
  induction l with
  | nil =>
    intro acc _
    simp
  | cons c l ih =>
    intro acc h
    have hc : c ∉ acc := by
      rcases List.nodup_append.mp h with ⟨-, -, hdisj⟩
      intro hmem
      exact hdisj hmem (by simp)
    rw [List.foldl_cons, if_neg hc]
    have h2 : ((acc ++ [c]) ++ l).Nodup := by
      rw [List.append_assoc, List.singleton_append]
      exact h
    rw [ih (acc ++ [c]) h2, List.append_assoc, List.singleton_append]

lemma firstDedup_eq_self {l : List String} (h : l.Nodup) : firstDedup l = l := by
  unfold firstDedup
  have h2 := foldl_keyStep_append l [] (by simpa using h)
  simpa using h2

lemma lookupV_dinsert {α : Type} (m : List (String × α)) (k1 k : String) (v : α) :
    lookupV k (dinsert m k1 v) = if k1 = k then some v else lookupV k m := by
  induction m with
  | nil =>
    by_cases h : k1 = k
    · simp [dinsert, lookupV, h]
    · simp [dinsert, lookupV, h]
  | cons q m ih =>
    obtain ⟨k0, v0⟩ := q
    by_cases h0 : k0 = k1
    · subst h0
      unfold dinsert
      rw [if_pos rfl]
      by_cases hk : k0 = k
      · rw [if_pos hk]
        unfold lookupV
        rw [List.find?_cons_of_pos _ (by simpa using hk)]
        rfl
      · rw [if_neg hk]
        unfold lookupV
        rw [List.find?_cons_of_neg _ (by simpa using hk),
          List.find?_cons_of_neg _ (by simpa using hk)]
    · unfold dinsert
      rw [if_neg h0]
      by_cases hk0 : k0 = k
      · have hk1 : ¬(k1 = k) := fun he => h0 (hk0.trans he.symm)
        rw [if_neg hk1]
        unfold lookupV
        rw [List.find?_cons_of_pos _ (by simpa using hk0),
          List.find?_cons_of_pos _ (by simpa using hk0)]
      · have hL : lookupV k ((k0, v0) :: dinsert m k1 v) = lookupV k (dinsert m k1 v) := by
          unfold lookupV
          rw [List.find?_cons_of_neg _ (by simpa using hk0)]
        have hR : lookupV k ((k0, v0) :: m) = lookupV k m := by
          unfold lookupV
          rw [List.find?_cons_of_neg _ (by simpa using hk0)]
        rw [hL, hR]
        exact ih

lemma getLast?_cons_or {α : Type} (a : α) (l : List α) :
    (a :: l).getLast? = l.getLast?.or (some a) := by
  induction l generalizing a with
  | nil => rfl
  | cons b l ih =>
    rw [List.getLast?_cons_cons, ih b, Option.or_assoc, Option.or_some]

lemma map_or {α β : Type} (f : α → β) (o o2 : Option α) :
    (o.or o2).map f = (o.map f).or (o2.map f) := by
  cases o <;> rfl

lemma lastWriteVal_cons {α : Type} (k : String) (p : String × α) (ws : List (String × α)) :
    lastWriteVal k (p :: ws) =
      (lastWriteVal k ws).or (if p.1 = k then some p.2 else none) := by
  unfold lastWriteVal
  rw [List.filter_cons]
  by_cases h : p.1 = k
  · rw [if_pos (by simpa using h), if_pos h, getLast?_cons_or, map_or]
    rfl
  · rw [if_neg (by simpa using h), if_neg h, Option.or_none]

lemma lookupV_foldl_dinsert {α : Type} (ws : List (String × α)) :
    ∀ (m : List (String × α)) (k : String),
      lookupV k (ws.foldl (fun m p => dinsert m p.1 p.2) m) =
        (lastWriteVal k ws).or (lookupV k m) := by
  induction ws with
  | nil =>
    intro m k
    simp [lastWriteVal]
  | cons p ws ih =>
    intro m k
    rw [List.foldl_cons, ih, lookupV_dinsert, lastWriteVal_cons]
    by_cases h : p.1 = k
    · rw [if_pos h, if_pos h, Option.or_assoc, Option.or_some]
    · rw [if_neg h, if_neg h, Option.or_none]

/- Row-append lemmas. -/

lemma selVals_length (k : String) (zs : List (String × String)) :
    (selVals k zs).length = zs.countP (fun p => p.1 == k) := by
  unfold selVals
  rw [List.length_map, ← List.countP_eq_length_filter]

lemma countP_fst_zip_eq_count (k : String) (cols rowvals : List String)
    (hlen : rowvals.length = cols.length) :
    (cols.zip rowvals).countP (fun p => p.1 == k) = cols.count k := by
  have h1 : (cols.zip rowvals).countP (fun p => p.1 == k)
      = ((cols.zip rowvals).map Prod.fst).countP (fun c => c == k) := by
    rw [List.countP_map]
    rfl
  rw [h1, List.map_fst_zip _ _ (by omega), List.count_eq_countP]

lemma foldl_dappend_eq (zs : List (String × String)) :
    ∀ d : List (String × List Value),
      zs.foldl (fun d p => dappend d p.1 (_parse_scalar p.2)) d
        = d.map (fun q => (q.1, q.2 ++ selVals q.1 zs)) := by
  induction zs with
  | nil =>
    intro d
    simp [selVals]
  | cons p zs ih =>
    intro d
    rw [List.foldl_cons, ih]
    unfold dappend
    rw [List.map_map]
    apply List.map_congr_left
    intro q _
    by_cases hqc : q.1 = p.1
    · simp only [Function.comp_apply, if_pos hqc]
      unfold selVals
      rw [List.filter_cons, if_pos (by simpa using hqc.symm)]
      simp [List.append_assoc]
    · simp only [Function.comp_apply, if_neg hqc]
      unfold selVals
      rw [List.filter_cons, if_neg (by simpa using fun he : p.1 = q.1 => hqc he.symm)]

lemma TableInv_new (tname : String) (cols : List String) :
    TableInv { name := tname, columns := cols, data := initData cols, rows := 0 } := by
  constructor
  · exact initData_map_fst cols
  · intro _ p hp
    rw [initData_values_nil cols p hp]
    rfl

lemma appendRow_TableInv (t : Table) (rowvals : List String)
    (hinv : TableInv t) (hlen : rowvals.length = t.columns.length) :
    TableInv (appendRow t rowvals) := by
  obtain ⟨hkeys, hlens⟩ := hinv
  unfold TableInv appendRow
  constructor
  · rw [foldl_dappend_eq, List.map_map]
    have hcomp : (Prod.fst ∘ fun q : String × List Value =>
        (q.1, q.2 ++ selVals q.1 (t.columns.zip rowvals))) = Prod.fst := by
      funext q
      rfl
    rw [hcomp]
    exact hkeys
  · intro hnd p hp
    rw [foldl_dappend_eq] at hp
    rcases List.mem_map.mp hp with ⟨q, hq, rfl⟩
    have hq1 : q.1 ∈ t.columns := by
      have h1 : q.1 ∈ t.data.map Prod.fst := List.mem_map_of_mem Prod.fst hq
      rw [hkeys, firstDedup_eq_self hnd] at h1
      exact h1
    have hcount : t.columns.count q.1 = 1 := List.count_eq_one_of_mem hnd hq1
    show (q.2 ++ selVals q.1 (t.columns.zip rowvals)).length = t.rows + 1
    rw [List.length_append, hlens hnd q hq, selVals_length,
      countP_fst_zip_eq_count q.1 t.columns rowvals hlen, hcount]

/- Characterization of every successful step of the dispatcher. -/

lemma stepLine_ok (s s2 : BState) (raw : String) (h : stepLine s raw = Except.ok s2) :
    (s2.tables = s.tables ∧ s2.pairs = s.pairs ∧ s2.pairTrace = s.pairTrace) ∨
    (∃ k v, s2 = { s with pairs := dinsert s.pairs k v,
                          pairTrace := s.pairTrace ++ [(k, v)] }) ∨
    (∃ tname cols, s.tables.find? (fun u => u.name == tname) = none ∧
      s2 = { s with tables := s.tables ++
              [{ name := tname, columns := cols, data := initData cols, rows := 0 }] }) ∨
    (∃ tname rowvals t, s.tables.find? (fun u => u.name == tname) = some t ∧
      rowvals.length = t.columns.length ∧
      s2 = { s with tables :=
              s.tables.map (fun u => if u.name == tname then appendRow u rowvals else u) }) := by
  unfold stepLine at h
  split at h
  · rw [Except.ok.injEq] at h
    subst h
    exact Or.inl ⟨rfl, rfl, rfl⟩
  · split at h
    · rw [Except.ok.injEq] at h
      subst h
      exact Or.inl ⟨rfl, rfl, rfl⟩
    · rw [Except.ok.injEq] at h
      subst h
      exact Or.inl ⟨rfl, rfl, rfl⟩
    · rename_i tag rest
      split at h
      · rw [Except.ok.injEq] at h
        subst h
        exact Or.inl ⟨rfl, rfl, rfl⟩
      · split at h
        · rw [Except.ok.injEq] at h
          subst h
          exact Or.inl ⟨rfl, rfl, rfl⟩
        · split at h
          · unfold handlePair at h
            split at h
            · rename_i key v1 vrest
              rw [Except.ok.injEq] at h
              subst h
              exact Or.inr (Or.inl ⟨key, _, rfl⟩)
            · rw [Except.ok.injEq] at h
              subst h
              exact Or.inl ⟨rfl, rfl, rfl⟩
          · split at h
            · unfold handleAltcols at h
              split at h
              · rename_i tname c1 crest
                split at h
                · rename_i t hfind
                  split at h
                  · exact Except.noConfusion h
                  · rw [Except.ok.injEq] at h
                    subst h
                    exact Or.inl ⟨rfl, rfl, rfl⟩
                · rename_i hfind
                  rw [Except.ok.injEq] at h
                  subst h
                  exact Or.inr (Or.inr (Or.inl ⟨tname, c1 :: crest, hfind, rfl⟩))
              · rw [Except.ok.injEq] at h
                subst h
                exact Or.inl ⟨rfl, rfl, rfl⟩
            · split at h
              · unfold handleAltrow at h
                split at h
                · rw [Except.ok.injEq] at h
                  subst h
                  exact Or.inl ⟨rfl, rfl, rfl⟩
                · rename_i tname rowvals
                  split at h
                  · exact Except.noConfusion h
                  · rename_i t hfind
                    split at h
                    · exact Except.noConfusion h
                    · rename_i hlen
                      rw [Except.ok.injEq] at h
                      subst h
                      exact Or.inr (Or.inr (Or.inr
                        ⟨tname, rowvals, t, hfind, not_not.mp hlen, rfl⟩))
              · rw [Except.ok.injEq] at h
                subst h
                exact Or.inl ⟨rfl, rfl, rfl⟩

/- Invariant plumbing over the whole parse loop. -/

lemma parseLines_inv (P : BState → Prop)
    (hstep : ∀ s s2 raw, P s → stepLine s raw = Except.ok s2 → P s2) :
    ∀ (ls : List String) (s0 sf : BState), P s0 → parseLines s0 ls = Except.ok sf → P sf := by
  intro ls
  induction ls with
  | nil =>
    intro s0 sf h0 hp
    unfold parseLines at hp
    rw [Except.ok.injEq] at hp
    subst hp
    exact h0
  | cons l ls ih =>
    intro s0 sf h0 hp
    unfold parseLines at hp
    cases hst : stepLine s0 l with
    | ok s1 =>
      rw [hst] at hp
      exact ih s1 sf (hstep s0 s1 l h0 hst) hp
    | error e =>
      rw [hst] at hp
      exact Except.noConfusion hp

lemma find?_name_eq_none (tables : List Table) (tname : String)
    (h : tables.find? (fun u => u.name == tname) = none) :
    tname ∉ tables.map Table.name := by
  intro hm
  rcases List.mem_map.mp hm with ⟨u, hu, hname⟩
  have h2 := List.find?_eq_none.mp h u hu
  simp [hname] at h2

lemma find?_unique_by_name (tname : String) (t u : Table) :
    ∀ tables : List Table, (tables.map Table.name).Nodup →
      tables.find? (fun v => v.name == tname) = some t →
      u ∈ tables → u.name = tname → u = t := by
  intro tables
  induction tables with
  | nil =>
    intro _ _ hu _
    simp at hu
  | cons w rest ih =>
    intro hnd hf hu hun
    have hnd2 : (rest.map Table.name).Nodup := (List.nodup_cons.mp (by simpa using hnd)).2
    have hwnotin : w.name ∉ rest.map Table.name := (List.nodup_cons.mp (by simpa using hnd)).1
    cases hw : (w.name == tname) with
    | true =>
      have hwt : w.name = tname := by simpa using hw
      rw [List.find?_cons] at hf
      simp only [hw] at hf
      injection hf with hf2
      rcases List.mem_cons.mp hu with h1 | h1
      · rw [h1, hf2]
      · exfalso
        apply hwnotin
        rw [hwt, ← hun]
        exact List.mem_map_of_mem Table.name h1
    | false =>
      rw [List.find?_cons] at hf
      simp only [hw] at hf
      rcases List.mem_cons.mp hu with h1 | h1
      · exfalso
        rw [h1] at hun
        simp [hun] at hw
      · exact ih hnd2 hf h1 hun

lemma initState_StateInv : StateInv initState := by
  constructor
  · simp [initState]
  · intro t ht
    simp [initState] at ht

lemma stepLine_StateInv (s s2 : BState) (raw : String)
    (hs : StateInv s) (h : stepLine s raw = Except.ok s2) : StateInv s2 := by
  rcases stepLine_ok s s2 raw h with
    ⟨ht, -, -⟩ | ⟨k, v, rfl⟩ | ⟨tname, cols, hfind, rfl⟩ |
    ⟨tname, rowvals, t, hfind, hlen, rfl⟩
  · unfold StateInv at hs ⊢
    rw [ht]
    exact hs
  · exact hs
  · obtain ⟨hnd, hinv⟩ := hs
    constructor
    · show ((s.tables ++ [_]).map Table.name).Nodup
      rw [List.map_append, List.nodup_append]
      refine ⟨hnd, by simp, ?_⟩
      intro a ha hb
      simp only [List.map_cons, List.map_nil, List.mem_singleton] at hb
      exact find?_name_eq_none s.tables tname hfind (hb ▸ ha)
    · intro t2 ht2
      rcases List.mem_append.mp ht2 with h1 | h1
      · exact hinv t2 h1
      · have h2 : t2 = { name := tname, columns := cols, data := initData cols, rows := 0 } := by
          simpa using h1
        rw [h2]
        exact TableInv_new tname cols
  · obtain ⟨hnd, hinv⟩ := hs
    constructor
    · show ((s.tables.map fun u => if u.name == tname then appendRow u rowvals else u).map
        Table.name).Nodup
      have hcomm : (s.tables.map fun u =>
          if u.name == tname then appendRow u rowvals else u).map Table.name
          = s.tables.map Table.name := by
        rw [List.map_map]
        apply List.map_congr_left
        intro u _
        by_cases hb : (u.name == tname) = true <;>
          simp [Function.comp, hb, appendRow]
      rw [hcomm]
      exact hnd
    · intro t2 ht2
      rcases List.mem_map.mp ht2 with ⟨u, hu, rfl⟩
      by_cases hb : (u.name == tname) = true
      · rw [if_pos hb]
        have hut : u = t :=
          find?_unique_by_name tname t u s.tables hnd hfind hu (by simpa using hb)
        rw [hut]
        exact appendRow_TableInv t rowvals (hinv t (hut ▸ hu)) hlen
      · rw [if_neg hb]
        exact hinv u hu

lemma initState_PairInv : PairInv initState := rfl

lemma stepLine_PairInv (s s2 : BState) (raw : String)
    (hp : PairInv s) (h : stepLine s raw = Except.ok s2) : PairInv s2 := by
  rcases stepLine_ok s s2 raw h with
    ⟨-, hp2, ht2⟩ | ⟨k, v, rfl⟩ | ⟨tname, cols, hfind, rfl⟩ |
    ⟨tname, rowvals, t, hfind, hlen, rfl⟩
  · unfold PairInv at hp ⊢
    rw [hp2, ht2]
    exact hp
  · unfold PairInv at hp ⊢
    show dinsert s.pairs k v = (s.pairTrace ++ [(k, v)]).foldl (fun m p => dinsert m p.1 p.2) []
    rw [List.foldl_append, ← hp]
    rfl
  · exact hp
  · exact hp

/- ------------------------------------------------------------------ -/
/- Claims C1 and C7.                                                   -/
/- ------------------------------------------------------------------ -/

/-- Claim C1 counterexample: with a duplicated column name in the defining
`#altcols` line (`#altcols t a a`), one accepted `#altrow` leaves the single
data entry for `a` holding two values — its length does not equal the
number of accepted rows, refuting the claim's duplicate-name case. -/
theorem table_lengths_dup_columns_cex :
    parseLines initState ["#altcols t a a", "#altrow t 1 2"] = Except.ok c1CexState ∧
    c1CexTable ∈ c1CexState.tables ∧
    c1CexTable.rows = 1 ∧
    ¬(∀ p ∈ c1CexTable.data, p.2.length = c1CexTable.rows) := by
  refine ⟨by rfl, by decide, by rfl, by decide⟩

/-- Claim C1 (corrected): at every point during parsing — every state
reachable by running the parser on any input prefix — and hence in the
final document, every table **whose column list has no duplicate names**
has one data entry per column, and every entry's length equals the number
of accepted `#altrow` lines for that table (the ghost `rows` counter), the
same count across all columns.  The original claim's duplicate-name case
is false: see the counterexample. -/
theorem table_lengths_eq_rows (ls : List String) (s : BState)
    (h : parseLines initState ls = Except.ok s) (t : Table) (ht : t ∈ s.tables)
    (hnd : t.columns.Nodup) :
    t.data.map Prod.fst = t.columns ∧ ∀ p ∈ t.data, p.2.length = t.rows := by
  have hinv : StateInv s :=
    parseLines_inv StateInv stepLine_StateInv ls initState s initState_StateInv h
  obtain ⟨hkeys, hlens⟩ := hinv.2 t ht
  exact ⟨by rw [hkeys, firstDedup_eq_self hnd], hlens hnd⟩

theorem table_lengths_eq_rows_witness :
    c1WitTable.data.map Prod.fst = c1WitTable.columns ∧
    ∀ p ∈ c1WitTable.data, p.2.length = c1WitTable.rows :=
  table_lengths_eq_rows ["#altcols t a b", "#altrow t 1 2"] c1WitState (by rfl)
    c1WitTable (by decide) (by decide)

/-- Claim C7 (confirmed): in the final document the pairs mapping lists its
keys in first-insertion order — the fold that appends a key only on its
first write, over the chronological ghost trace of accepted `#pair`
writes — and each key's stored value is the one from the last write to
that key; an overwrite replaces the value in place and never moves the
key. -/
theorem pairs_first_insertion_last_write (ls : List String) (s : BState)
    (h : parseLines initState ls = Except.ok s) :
    _parse_rdb ls = Except.ok (finalize s) ∧
    s.pairs.map Prod.fst = firstDedup (s.pairTrace.map Prod.fst) ∧
    ∀ k, lookupV k s.pairs = lastWriteVal k s.pairTrace := by
  have hp : PairInv s :=
    parseLines_inv PairInv stepLine_PairInv ls initState s initState_PairInv h
  refine ⟨?_, ?_, ?_⟩
  · unfold _parse_rdb
    rw [h]
    rfl
  · unfold PairInv at hp
    rw [hp, foldl_dinsert_map_fst]
    unfold firstDedup
    rw [List.foldl_map]
    rfl
  · intro k
    unfold PairInv at hp
    rw [hp, lookupV_foldl_dinsert]
    rw [show lookupV k ([] : List (String × Value)) = none from rfl, Option.or_none]

theorem pairs_first_insertion_last_write_witness :
    c7State.pairs.map Prod.fst = firstDedup (c7State.pairTrace.map Prod.fst) ∧
    lookupV "k" c7State.pairs = lastWriteVal "k" c7State.pairTrace :=
  ⟨(pairs_first_insertion_last_write ["#pair k 1", "#pair k 2"] c7State (by rfl)).2.1,
   (pairs_first_insertion_last_write ["#pair k 1", "#pair k 2"] c7State (by rfl)).2.2 "k"⟩

end RDB
